import Mathlib

/-!
Formal model of the pizza-nz/project-struct-cli scanner and document pipeline.

The Go sources embedded here:
- generator.go : Generator, findMatcherForDir, processPath, binaryExts
- main.go      : run (builder selection, walk, build), getFileLanguage
- builder.go   : legacy MarkdownBuilder.Build template selection
- builders/    : DefaultBuilder, LLMBuilder, ReviewBuilder

Paths are modelled as lists of components.  A gitignore matcher
(go-gitignore IgnoreParser.MatchesPath) is abstracted as a predicate on
paths; compiling a rules file is an environment-supplied partial function.
File sizes are natural numbers (os.FileInfo.Size is non-negative); the
size limits are natural numbers where 0 means "not configured", matching
the `> 0` guards in processPath.  Reading a file may fail, so a file's
content is an `Option String` (`none` = os.ReadFile error).
-/

namespace ProjectStruct

/-- A filesystem path, as its list of components relative to the
filesystem root.  `[]` plays the role of both "." and "/" (the two
terminating cases of findMatcherForDir besides the scan root). -/
abbrev Path := List String

/-- An ignore matcher: the abstraction of a compiled go-gitignore
IgnoreParser, observed only through MatchesPath. -/
abbrev Matcher := Path → Bool

/-- templates.FileData (templates package): relative path, content,
language tag. -/
structure FileData where
  path : Path
  content : String
  language : String
deriving DecidableEq

/-- The Generator configuration relevant to one walk: the scan root,
the optional command-line matcher (WithCliIgnore), the per-directory
rules-file facts (os.Stat on dir/.gitignore succeeding, and
ignore.CompileIgnoreFile succeeding with some matcher), and the two
size limits in bytes (maxSizeBytes, totalSizeLimit; 0 = unlimited). -/
structure WalkEnv where
  srcDir : Path
  cliMatcher : Option Matcher
  hasRules : Path → Bool
  compileRules : Path → Option Matcher
  maxSizeBytes : Nat
  totalSizeLimit : Nat

/-- The matcherCache field of Generator: a map from directory to the
resolved matcher (a nil entry is stored as `none`). -/
abbrev Cache := List (Path × Option Matcher)

def cacheLookup (c : Cache) (d : Path) : Option (Option Matcher) :=
  match c.find? (fun e => e.1 == d) with
  | some e => some e.2
  | none => none

/-- The mutable part of Generator during one walk, together with the
builder's accumulated file list (DocumentBuilder.AddFile appends). -/
structure GenState where
  currentTotalSize : Nat
  files : List FileData
  cache : Cache

/-- binaryExts from generator.go:17-22. -/
def binaryExtsList : List String :=
  [".exe", ".dll", ".so", ".a", ".lib", ".o",
   ".zip", ".gz", ".tar", ".rar", ".7z",
   ".png", ".jpg", ".jpeg", ".gif", ".bmp", ".ico",
   ".pdf", ".doc", ".docx", ".xls", ".xlsx", ".ppt", ".pptx"]

/-- The suffix of a name starting at its final dot, if any. -/
def extFrom : List Char → Option (List Char)
  | [] => none
  | c :: rest =>
    match extFrom rest with
    | some s => some s
    | none => if c = '.' then some (c :: rest) else none

/-- Go filepath.Ext restricted to a single path element: the suffix from
the final dot, or "" when the element has no dot. -/
def filepathExt (name : String) : String :=
  match extFrom name.toList with
  | some s => String.mk s
  | none => ""

/-- getFileLanguage from main.go: extension to Markdown language label. -/
def getFileLanguage (p : Path) : String :=
  match filepathExt (p.getLastD "") with
  | ".go" => "go"
  | ".js" => "javascript"
  | ".ts" => "typescript"
  | ".py" => "python"
  | ".md" => "markdown"
  | ".json" => "json"
  | ".html" => "html"
  | ".css" => "css"
  | ".yaml" => "yaml"
  | ".yml" => "yaml"
  | ".sh" => "shell"
  | _ => ""

/-- filepath.Rel(base, p) for the walk, where p always lies under base:
drop the base prefix. -/
def relTo (base p : Path) : Path := p.drop base.length

/-- The directory-local rules file of a directory, combining the os.Stat
check (generator.go:121) with ignore.CompileIgnoreFile (generator.go:123):
`none` when the file is absent, unreadable or malformed. -/
def localRule (env : WalkEnv) (dir : Path) : Option Matcher :=
  if env.hasRules dir then env.compileRules dir else none

/-- The recursion of Generator.findMatcherForDir, implemented on the
reversed component list of the directory so that taking the parent
(filepath.Dir, i.e. dropLast on components) is structurally the tail.
The `[]` case of the innermost match is unreachable: a directory with
no components already satisfied the root test. -/
def findMatcherRev (env : WalkEnv) (cache : Cache) (rd : List String) :
    Option Matcher × Cache :=
  let dir := rd.reverse
  match cacheLookup cache dir with
  | some m => (m, cache)
  | none =>
    match localRule env dir with
    | some m => (some m, (dir, some m) :: cache)
    | none =>
      if dir = env.srcDir ∨ dir = [] then (none, (dir, none) :: cache)
      else
        match rd with
        | [] => (none, (dir, none) :: cache)
        | _ :: rt =>
          let r := findMatcherRev env cache rt
          (r.1, (dir, r.1) :: r.2)

/-- Generator.findMatcherForDir (generator.go:113-144): check the cache,
else look for a parseable rules file here, else stop at the scan root or
a filesystem root, else take the parent's resolution; every computed
answer is cached under the queried directory.  The source-shaped
recurrence is findMatcherForDir_eq below. -/
def findMatcherForDir (env : WalkEnv) (dir : Path) (cache : Cache) :
    Option Matcher × Cache :=
  findMatcherRev env cache dir.reverse

/-- The cache-free specification of findMatcherForDir: the same
algorithm without memoisation. -/
def resolveSpec (env : WalkEnv) (dir : Path) : Option Matcher :=
  match localRule env dir with
  | some m => some m
  | none =>
    if h : dir = env.srcDir ∨ dir = [] then none
    else resolveSpec env dir.dropLast
termination_by dir.length
decreasing_by
  have hne : dir ≠ [] := fun he => h (Or.inr he)
  have hpos : 0 < dir.length := List.length_pos.mpr hne
  simp only [List.length_dropLast]
  omega

/-- A cache is valid when every entry agrees with the cache-free
resolution (true of the empty cache a fresh Generator starts with, and
preserved by findMatcherForDir). -/
def cacheValid (env : WalkEnv) (c : Cache) : Prop :=
  ∀ d v, cacheLookup c d = some v → v = resolveSpec env d

-- A directory tree: files carry the os.FileInfo size and the result of
-- os.ReadFile (`none` = read error); directories carry their entries in
-- traversal (lexical) order.
mutual
inductive Entry : Type where
  | file : (name : String) → (size : Nat) → (content : Option String) → Entry
  | dir : (name : String) → (children : EntryList) → Entry
inductive EntryList : Type where
  | nil : EntryList
  | cons : Entry → EntryList → EntryList
end

def Entry.name : Entry → String
  | .file n _ _ => n
  | .dir n _ => n

/-- The error processPath returns when the cumulative limit would be
exceeded (generator.go:191); the printf formatting of the limit is
irrelevant here. -/
def budgetErrMsg : String := "total size limit exceeded"

def matcherMatches (m : Option Matcher) (p : Path) : Bool :=
  match m with
  | some f => f p
  | none => false

def cliMatches (env : WalkEnv) (p : Path) : Bool :=
  match env.cliMatcher with
  | some f => f p
  | none => false

mutual
/-- Generator.processPath (generator.go:148-217) combined with the
filepath.WalkDir traversal (Walk, generator.go:106-109): a .git
directory is pruned; then the directory-local matcher of the containing
directory and the cli matcher are consulted (an ignored directory is
pruned, an ignored file skipped); for a file, the binary-extension
check, the per-file size check, the cumulative-budget check (the only
error exit), the content read (failure skips the file), and finally the
append of the FileData record to the builder with the running total
increased. -/
def walkEntry (env : WalkEnv) (path : Path) (e : Entry) (s : GenState) :
    GenState × Option String :=
  match e with
  | .dir name children =>
    if name = ".git" then (s, none)
    else
      let r := findMatcherForDir env path.dropLast s.cache
      let s1 : GenState := { s with cache := r.2 }
      if matcherMatches r.1 path || cliMatches env path then (s1, none)
      else walkEntries env path children s1
  | .file name size content =>
    let r := findMatcherForDir env path.dropLast s.cache
    let s1 : GenState := { s with cache := r.2 }
    if matcherMatches r.1 path || cliMatches env path then (s1, none)
    else if binaryExtsList.contains (filepathExt name) then (s1, none)
    else if 0 < env.maxSizeBytes ∧ env.maxSizeBytes < size then (s1, none)
    else if 0 < env.totalSizeLimit ∧ env.totalSizeLimit < s1.currentTotalSize + size then
      (s1, some budgetErrMsg)
    else
      match content with
      | none => (s1, none)
      | some c =>
        let rel := relTo env.srcDir path
        ({ currentTotalSize := s1.currentTotalSize + size,
           files := s1.files ++ [{ path := rel, content := c, language := getFileLanguage rel }],
           cache := s1.cache }, none)

/-- Sequential processing of the entries of one directory: an error
from any entry aborts the remaining entries and the whole walk
(filepath.WalkDir semantics for a non-SkipDir error). -/
def walkEntries (env : WalkEnv) (dirPath : Path) (es : EntryList) (s : GenState) :
    GenState × Option String :=
  match es with
  | .nil => (s, none)
  | .cons e rest =>
    let r := walkEntry env (dirPath ++ [e.name]) e s
    match r.2 with
    | some err => (r.1, some err)
    | none => walkEntries env dirPath rest r.1
end

/-- One whole walk from a fresh Generator (empty cache, zero total,
empty builder), on the root entry at the scan root path. -/
def walkRoot (env : WalkEnv) (root : Entry) : GenState × Option String :=
  walkEntry env env.srcDir root { currentTotalSize := 0, files := [], cache := [] }

/-- The three concrete DocumentBuilder implementations selectable in run
(main.go): ReviewBuilder, LLMBuilder, DefaultBuilder. -/
inductive BuilderKind where
  | reviewB : BuilderKind
  | llmB : BuilderKind
  | defaultB : BuilderKind
deriving DecidableEq

/-- The builder-selection switch of run (main.go): case "review", case
"llm", and a default case that selects the DefaultBuilder for every
other format string. -/
def selectBuilder (format : String) : BuilderKind :=
  if format = "review" then .reviewB
  else if format = "llm" then .llmB
  else .defaultB

/-- ReviewFileData (builders/review.go): one file pre-split into
numbered lines, each line a character list. -/
structure ReviewFileData where
  path : Path
  language : String
  lines : List (List Char)
deriving DecidableEq

/-- templates.TemplateData: the record the default and LLM builders
hand to templates.ExecuteTemplate.  The summary is the README FileData
run passes to SetSummary, when the README was readable. -/
structure TemplateData where
  projectName : String
  projectSummary : Option FileData
  files : List FileData
deriving DecidableEq

/-- The three embedded template identities (templates package constants
Review, Default, LLM). -/
inductive TemplateId where
  | reviewT : TemplateId
  | defaultT : TemplateId
  | llmT : TemplateId
deriving DecidableEq

/-- A finalized document: the structured data each builder feeds to the
out-of-scope template layer, together with which template renders it.
The review variant carries pre-split numbered lines instead of raw
contents. -/
inductive Document where
  | plain : TemplateId → TemplateData → Document
  | review : (projectName : String) → (projectSummary : Option FileData) →
      (files : List ReviewFileData) → Document
deriving DecidableEq

/-- Go strings.Split(s, "\n") on the character list: the slices between
newline separators; the empty input yields one empty slice, a trailing
newline yields a final empty slice. -/
def splitNl : List Char → List (List Char)
  | [] => [[]]
  | c :: cs =>
    match splitNl cs with
    | [] => [[]]
    | h :: t => if c = '\n' then [] :: h :: t else (c :: h) :: t

/-- Go fmt.Sprintf("%4d", n): decimal digits of n right-aligned in a
field of minimum width 4, padded with spaces. -/
def natPad4 (n : Nat) : List Char :=
  List.replicate (4 - (toString n).length) ' ' ++ (toString n).toList

/-- One numbered line of ReviewBuilder.Build:
fmt.Sprintf("%4d: %s", n, line). -/
def sprintfNum (n : Nat) (line : List Char) : List Char :=
  natPad4 n ++ [':', ' '] ++ line

/-- The numbering loop of ReviewBuilder.Build, starting at k (the
source starts at i+1 = 1). -/
def numberLines : Nat → List (List Char) → List (List Char)
  | _, [] => []
  | k, l :: ls => sprintfNum k l :: numberLines (k + 1) ls

/-- ReviewBuilder.Build per-file decomposition: split the content on
newlines and number the lines 1-based. -/
def reviewLines (content : String) : List (List Char) :=
  numberLines 1 (splitNl content.toList)

/-- ReviewBuilder.Build (builders/review.go:45-60): map each
accumulated FileData to its ReviewFileData. -/
def reviewTransform (files : List FileData) : List ReviewFileData :=
  files.map fun f => { path := f.path, language := f.language, lines := reviewLines f.content }

/-- Build of the selected builder: the structured data it sends to
templates.ExecuteTemplate and under which template. -/
def buildDoc (kind : BuilderKind) (name : String) (summary : Option FileData)
    (files : List FileData) : Document :=
  match kind with
  | .reviewB => .review name summary (reviewTransform files)
  | .llmB => .plain .llmT { projectName := name, projectSummary := summary, files := files }
  | .defaultB => .plain .defaultT { projectName := name, projectSummary := summary, files := files }

/-- run (main.go): select the builder from the format string, set the
project name from the scan root, set the README summary when readable,
walk the tree, and on walk success call Build exactly once; a walk
error is returned before Build is ever called.  The byte rendering of
the Document by the template layer is out of scope (spec section 1). -/
def runModel (env : WalkEnv) (format : String) (root : Entry) (readme : Option String) :
    Except String Document :=
  let kind := selectBuilder format
  let name := env.srcDir.getLastD ""
  let summary : Option FileData :=
    readme.map fun c =>
      { path := [], content := c, language := getFileLanguage (env.srcDir ++ ["README.md"]) }
  let out := walkRoot env root
  match out.2 with
  | some e => .error e
  | none => .ok (buildDoc kind name summary out.1.files)

/-- The template selection of the legacy MarkdownBuilder.Build
(builder.go:54-70): unlike run, it rejects every format string other
than the three recognized ones. -/
def markdownTemplatePath (format : String) : Except String String :=
  if format = "review" then .ok "templates/review.md.tmpl"
  else if format = "llm" then .ok "templates/llm.txt.tmpl"
  else if format = "default" then .ok "templates/default.md.tmpl"
  else .error ("unknown format: " ++ format)

-- Modelled from the claim C3 / spec section 8 words, for comparison
-- with the walker: the full paths of the entries under a given entry
-- that are not directories, not inside a directory named .git, and
-- whose extension is not in the binary/archive set.  `specClaimed` is
-- that set exactly as the claim states it; `specAccepted` additionally
-- requires the content read to succeed (the amended claim).
mutual
def specClaimed (path : Path) : Entry → List Path
  | .file name _ _ =>
    if binaryExtsList.contains (filepathExt name) then [] else [path]
  | .dir name children =>
    if name = ".git" then [] else specClaimedList path children
def specClaimedList (dirPath : Path) : EntryList → List Path
  | .nil => []
  | .cons e rest => specClaimed (dirPath ++ [e.name]) e ++ specClaimedList dirPath rest
end

mutual
def specAccepted (path : Path) : Entry → List Path
  | .file name _ content =>
    if binaryExtsList.contains (filepathExt name) then []
    else if content = none then []
    else [path]
  | .dir name children =>
    if name = ".git" then [] else specAcceptedList path children
def specAcceptedList (dirPath : Path) : EntryList → List Path
  | .nil => []
  | .cons e rest => specAccepted (dirPath ++ [e.name]) e ++ specAcceptedList dirPath rest
end

/-- The first index (in traversal order) at which a size, added to the
running total `acc` of the sizes before it, would exceed the budget B
(spec section 8, cumulative-ceiling property). -/
def firstOver (B : Nat) (acc : Nat) : List Nat → Option Nat
  | [] => none
  | b :: rest =>
    if B < acc + b then some 0
    else (firstOver B (acc + b) rest).map (fun i => i + 1)

/-- A flat batch of readable files as a directory's entry list. -/
def flatFiles : List (String × Nat × String) → EntryList
  | [] => .nil
  | (n, b, c) :: rest => .cons (.file n b (some c)) (flatFiles rest)

/-- The FileData record the walker delivers for a file directly under
the scan root. -/
def flatFD (x : String × Nat × String) : FileData :=
  { path := [x.1], content := x.2.2, language := getFileLanguage [x.1] }

/-- A Generator configuration over scan root `r` with no cli matcher, no
rules files anywhere, and the two given size limits. -/
def plainEnv (maxB totalB : Nat) : WalkEnv :=
  { srcDir := ["r"], cliMatcher := none,
    hasRules := fun _ => false, compileRules := fun _ => none,
    maxSizeBytes := maxB, totalSizeLimit := totalB }

/-- A command-line matcher excluding any path whose last component is
skip.txt. -/
def mCli : Matcher := fun p => p.getLastD "" == "skip.txt"

/-- A directory-local matcher excluding any path whose last component is
x.log. -/
def mSub : Matcher := fun p => p.getLastD "" == "x.log"

/-- plainEnv with the cli matcher mCli installed (WithCliIgnore). -/
def cliEnv : WalkEnv := { plainEnv 0 0 with cliMatcher := some mCli }

/-- plainEnv with one parseable rules file, in directory r/sub,
compiling to mSub. -/
def rulesEnv : WalkEnv :=
  { plainEnv 0 0 with
      hasRules := fun d => d == ["r", "sub"],
      compileRules := fun d => if d == ["r", "sub"] then some mSub else none }

/-- The state of a fresh Generator. -/
def s0 : GenState := { currentTotalSize := 0, files := [], cache := [] }

/-- A root whose only entry is a file whose content read fails. -/
def treeUnreadable : Entry := .dir "r" (.cons (.file "bad.txt" 2 none) .nil)

/-- A root mixing a readable source file, a binary file, a .git
directory and an unreadable file. -/
def treeMixed : Entry :=
  .dir "r" (.cons (.file "a.go" 3 (some "x"))
    (.cons (.file "b.png" 5 (some "y"))
    (.cons (.dir ".git" (.cons (.file "c.txt" 1 (some "z")) .nil))
    (.cons (.file "bad.txt" 2 none) .nil))))

/-- A root with a single small readable source file. -/
def treeOneFile : Entry := .dir "r" (.cons (.file "a.go" 3 (some "x")) .nil)

/-- A flat batch of three candidate files of sizes 3, 4 and 5. -/
def fsBatch : List (String × Nat × String) :=
  [("a.txt", 3, "x"), ("b.txt", 4, "y"), ("c.txt", 5, "z")]

/-- A three-line file record for the review builder. -/
def fdA : FileData := { path := ["a.go"], content := "p\nq\nr", language := "go" }

/-- A file record with one long line, batched next to fdA. -/
def fdB : FileData :=
  { path := ["b.go"], content := String.mk (List.replicate 30 'z'), language := "go" }

/-- findMatcherForDir satisfies, literally, the recurrence written in
generator.go:113-144. -/
theorem findMatcherForDir_eq (env : WalkEnv) (dir : Path) (cache : Cache) :
    findMatcherForDir env dir cache =
      match cacheLookup cache dir with
      | some m => (m, cache)
      | none =>
        match localRule env dir with
        | some m => (some m, (dir, some m) :: cache)
        | none =>
          if dir = env.srcDir ∨ dir = [] then (none, (dir, none) :: cache)
          else
            let r := findMatcherForDir env dir.dropLast cache
            (r.1, (dir, r.1) :: r.2) := by
  unfold findMatcherForDir
  rw [findMatcherRev.eq_def, List.reverse_reverse]
  cases hcl : cacheLookup cache dir with
  | some m => simp only [hcl]
  | none =>
    simp only [hcl]
    cases hlr : localRule env dir with
    | some m => simp only [hlr]
    | none =>
      simp only [hlr]
      by_cases hroot : dir = env.srcDir ∨ dir = []
      · simp only [if_pos hroot]
      · simp only [if_neg hroot]
        cases hdr : dir.reverse with
        | nil =>
          exact absurd (Or.inr (by simpa using congrArg List.reverse hdr)) hroot
        | cons x rt =>
          have hdir : dir = rt.reverse ++ [x] := by
            have h2 := congrArg List.reverse hdr
            simpa using h2
          have hdrop : dir.dropLast = rt.reverse := by
            rw [hdir, List.dropLast_concat]
          have hrt : dir.dropLast.reverse = rt := by
            rw [hdrop, List.reverse_reverse]
          simp only [hdr, hrt]

theorem cacheLookup_cons (d : Path) (v : Option Matcher) (c : Cache) (d2 : Path) :
    cacheLookup ((d, v) :: c) d2 = if d2 = d then some v else cacheLookup c d2 := by
  unfold cacheLookup
  by_cases h : d2 = d
  · subst h
    simp [List.find?]
  · have hne : (d == d2) = false := beq_eq_false_iff_ne.mpr fun he => h he.symm
    simp [List.find?, hne, h]

theorem cacheValid_nil (env : WalkEnv) : cacheValid env ([] : Cache) := by
  intro d v h
  simp [cacheLookup] at h

theorem resolveSpec_local (env : WalkEnv) (dir : Path) (m : Matcher)
    (h : localRule env dir = some m) : resolveSpec env dir = some m := by
  rw [resolveSpec.eq_def, h]

theorem resolveSpec_root (env : WalkEnv) (dir : Path)
    (h1 : localRule env dir = none) (h2 : dir = env.srcDir ∨ dir = []) :
    resolveSpec env dir = none := by
  rw [resolveSpec.eq_def, h1]
  simp [h2]

theorem resolveSpec_parent (env : WalkEnv) (dir : Path)
    (h1 : localRule env dir = none) (h2 : ¬(dir = env.srcDir ∨ dir = [])) :
    resolveSpec env dir = resolveSpec env dir.dropLast := by
  rw [resolveSpec.eq_def, h1]
  simp [h2]

theorem findMatcher_cacheHit (env : WalkEnv) (dir : Path) (c : Cache) (v : Option Matcher)
    (h : cacheLookup c dir = some v) : findMatcherForDir env dir c = (v, c) := by
  rw [findMatcherForDir_eq, h]

/-- Correctness of the memoised resolver against the cache-free
resolution: from a valid cache, findMatcherForDir returns the cache-free
answer, keeps the cache valid, records the answer under the queried
directory, and preserves every prior entry. -/
theorem findMatcherAux (env : WalkEnv) :
    ∀ (n : Nat) (dir : Path), dir.length ≤ n → ∀ (c : Cache), cacheValid env c →
      ((findMatcherForDir env dir c).1 = resolveSpec env dir ∧
       cacheValid env (findMatcherForDir env dir c).2 ∧
       cacheLookup (findMatcherForDir env dir c).2 dir = some (resolveSpec env dir) ∧
       (∀ d v, cacheLookup c d = some v →
          cacheLookup (findMatcherForDir env dir c).2 d = some v)) := by
  intro n
  induction n with
  | zero =>
    intro dir hlen c hc
    have hdir : dir = [] := List.eq_nil_of_length_eq_zero (Nat.le_zero.mp hlen)
    subst hdir
    cases hcl : cacheLookup c [] with
    | some m =>
      have heq : findMatcherForDir env [] c = (m, c) := findMatcher_cacheHit env [] c m hcl
      have hm := hc [] m hcl
      rw [heq]
      exact ⟨hm, hc, by rw [hcl, hm], fun d v h => h⟩
    | none =>
      cases hlr : localRule env [] with
      | some m =>
        have hres : resolveSpec env [] = some m := resolveSpec_local env [] m hlr
        have heq : findMatcherForDir env [] c = (some m, ([], some m) :: c) := by
          rw [findMatcherForDir_eq, hcl, hlr]
        rw [heq, hres]
        refine ⟨rfl, ?_, ?_, ?_⟩
        · intro d v hv
          rw [cacheLookup_cons] at hv
          by_cases hd : d = []
          · rw [if_pos hd] at hv
            cases hv
            rw [hd, hres]
          · rw [if_neg hd] at hv
            exact hc d v hv
        · rw [cacheLookup_cons, if_pos rfl]
        · intro d v hv
          have hd : ¬(d = []) := fun he => by
            rw [he, hcl] at hv
            exact Option.noConfusion hv
          rw [cacheLookup_cons, if_neg hd]
          exact hv
      | none =>
        have hroot : ([] : Path) = env.srcDir ∨ ([] : Path) = [] := Or.inr rfl
        have hres : resolveSpec env [] = none := resolveSpec_root env [] hlr hroot
        have heq : findMatcherForDir env [] c = (none, ([], none) :: c) := by
          rw [findMatcherForDir_eq, hcl, hlr]
          simp [hroot]
        rw [heq, hres]
        refine ⟨rfl, ?_, ?_, ?_⟩
        · intro d v hv
          rw [cacheLookup_cons] at hv
          by_cases hd : d = []
          · rw [if_pos hd] at hv
            cases hv
            rw [hd, hres]
          · rw [if_neg hd] at hv
            exact hc d v hv
        · rw [cacheLookup_cons, if_pos rfl]
        · intro d v hv
          have hd : ¬(d = []) := fun he => by
            rw [he, hcl] at hv
            exact Option.noConfusion hv
          rw [cacheLookup_cons, if_neg hd]
          exact hv
  | succ n ih =>
    intro dir hlen c hc
    cases hcl : cacheLookup c dir with
    | some m =>
      have heq : findMatcherForDir env dir c = (m, c) := findMatcher_cacheHit env dir c m hcl
      have hm := hc dir m hcl
      rw [heq]
      exact ⟨hm, hc, by rw [hcl, hm], fun d v h => h⟩
    | none =>
      cases hlr : localRule env dir with
      | some m =>
        have hres : resolveSpec env dir = some m := resolveSpec_local env dir m hlr
        have heq : findMatcherForDir env dir c = (some m, (dir, some m) :: c) := by
          rw [findMatcherForDir_eq, hcl, hlr]
        rw [heq, hres]
        refine ⟨rfl, ?_, ?_, ?_⟩
        · intro d v hv
          rw [cacheLookup_cons] at hv
          by_cases hd : d = dir
          · rw [if_pos hd] at hv
            cases hv
            rw [hd, hres]
          · rw [if_neg hd] at hv
            exact hc d v hv
        · rw [cacheLookup_cons, if_pos rfl]
        · intro d v hv
          have hd : ¬(d = dir) := fun he => by
            rw [he, hcl] at hv
            exact Option.noConfusion hv
          rw [cacheLookup_cons, if_neg hd]
          exact hv
      | none =>
        by_cases hroot : dir = env.srcDir ∨ dir = []
        · have hres : resolveSpec env dir = none := resolveSpec_root env dir hlr hroot
          have heq : findMatcherForDir env dir c = (none, (dir, none) :: c) := by
            rw [findMatcherForDir_eq, hcl, hlr]
            simp [hroot]
          rw [heq, hres]
          refine ⟨rfl, ?_, ?_, ?_⟩
          · intro d v hv
            rw [cacheLookup_cons] at hv
            by_cases hd : d = dir
            · rw [if_pos hd] at hv
              cases hv
              rw [hd, hres]
            · rw [if_neg hd] at hv
              exact hc d v hv
          · rw [cacheLookup_cons, if_pos rfl]
          · intro d v hv
            have hd : ¬(d = dir) := fun he => by
              rw [he, hcl] at hv
              exact Option.noConfusion hv
            rw [cacheLookup_cons, if_neg hd]
            exact hv
        · have hne : dir ≠ [] := fun he => hroot (Or.inr he)
          have hpos : 0 < dir.length := List.length_pos.mpr hne
          have hlen2 : dir.dropLast.length ≤ n := by
            rw [List.length_dropLast]
            omega
          obtain ⟨ih1, ih2, ih3, ih4⟩ := ih dir.dropLast hlen2 c hc
          have hres : resolveSpec env dir = resolveSpec env dir.dropLast :=
            resolveSpec_parent env dir hlr hroot
          have heq : findMatcherForDir env dir c =
              ((findMatcherForDir env dir.dropLast c).1,
               (dir, (findMatcherForDir env dir.dropLast c).1) ::
                 (findMatcherForDir env dir.dropLast c).2) := by
            rw [findMatcherForDir_eq, hcl, hlr]
            simp [hroot]
          rw [heq, hres]
          refine ⟨ih1, ?_, ?_, ?_⟩
          · intro d v hv
            rw [cacheLookup_cons] at hv
            by_cases hd : d = dir
            · rw [if_pos hd] at hv
              cases hv
              rw [hd, hres]
              exact ih1
            · rw [if_neg hd] at hv
              exact ih2 d v hv
          · rw [cacheLookup_cons, if_pos rfl, ih1]
          · intro d v hv
            have hd : ¬(d = dir) := fun he => by
              rw [he, hcl] at hv
              exact Option.noConfusion hv
            rw [cacheLookup_cons, if_neg hd]
            exact ih4 d v hv

/-- findMatcherAux instantiated at the trivial length bound. -/
theorem findMatcher_correct (env : WalkEnv) (dir : Path) (c : Cache) (hc : cacheValid env c) :
    (findMatcherForDir env dir c).1 = resolveSpec env dir ∧
    cacheValid env (findMatcherForDir env dir c).2 ∧
    cacheLookup (findMatcherForDir env dir c).2 dir = some (resolveSpec env dir) ∧
    (∀ d v, cacheLookup c d = some v →
       cacheLookup (findMatcherForDir env dir c).2 d = some v) :=
  findMatcherAux env dir.length dir (Nat.le_refl _) c hc

/-- When no directory has a rules file, the cache-free resolution is
always `none`. -/
theorem resolveSpec_none_of_noRules (env : WalkEnv)
    (hrules : ∀ d, env.hasRules d = false) :
    ∀ (n : Nat) (dir : Path), dir.length ≤ n → resolveSpec env dir = none := by
  intro n
  induction n with
  | zero =>
    intro dir hlen
    have hdir : dir = [] := List.eq_nil_of_length_eq_zero (Nat.le_zero.mp hlen)
    subst hdir
    exact resolveSpec_root env [] (by simp [localRule, hrules]) (Or.inr rfl)
  | succ n ih =>
    intro dir hlen
    have hlr : localRule env dir = none := by simp [localRule, hrules]
    by_cases hroot : dir = env.srcDir ∨ dir = []
    · exact resolveSpec_root env dir hlr hroot
    · rw [resolveSpec_parent env dir hlr hroot]
      apply ih
      have hne : dir ≠ [] := fun he => hroot (Or.inr he)
      have hpos : 0 < dir.length := List.length_pos.mpr hne
      rw [List.length_dropLast]
      omega

/-- With no rules files anywhere, the resolver returns no matcher and
keeps the cache valid. -/
theorem findMatcher_none_of_noRules (env : WalkEnv)
    (hrules : ∀ d, env.hasRules d = false) (dir : Path) (c : Cache)
    (hc : cacheValid env c) :
    (findMatcherForDir env dir c).1 = none ∧
    cacheValid env (findMatcherForDir env dir c).2 := by
  have h := findMatcher_correct env dir c hc
  have hr := resolveSpec_none_of_noRules env hrules dir.length dir (Nat.le_refl _)
  exact ⟨h.1.trans hr, h.2.1⟩

/-- C5: during the walk, a candidate path is excluded exactly when the
directory-local matcher resolved for its containing directory matches
it, or the command-line matcher matches it — a logical OR with no
ordering or override between the two sources (generator.go:162-170).
An excluded directory is pruned whole (its children are never walked),
an excluded file is skipped with no error so the walk continues; when
neither source matches, a directory is descended into and a file
proceeds to the later checks and is delivered when it passes them. -/
theorem c5_exclusion_is_or (env : WalkEnv) (path : Path) (s : GenState)
    (n : String) (b : Nat) (c : Option String) (ch : EntryList) :
    (((matcherMatches (findMatcherForDir env path.dropLast s.cache).1 path ||
        cliMatches env path) = true →
      walkEntry env path (.file n b c) s =
        ({ s with cache := (findMatcherForDir env path.dropLast s.cache).2 }, none)) ∧
     ((matcherMatches (findMatcherForDir env path.dropLast s.cache).1 path ||
        cliMatches env path) = true → n ≠ ".git" →
      walkEntry env path (.dir n ch) s =
        ({ s with cache := (findMatcherForDir env path.dropLast s.cache).2 }, none)) ∧
     ((matcherMatches (findMatcherForDir env path.dropLast s.cache).1 path ||
        cliMatches env path) = false → n ≠ ".git" →
      walkEntry env path (.dir n ch) s =
        walkEntries env path ch
          { s with cache := (findMatcherForDir env path.dropLast s.cache).2 }) ∧
     ((matcherMatches (findMatcherForDir env path.dropLast s.cache).1 path ||
        cliMatches env path) = false →
      binaryExtsList.contains (filepathExt n) = false →
      ¬(0 < env.maxSizeBytes ∧ env.maxSizeBytes < b) →
      ¬(0 < env.totalSizeLimit ∧ env.totalSizeLimit < s.currentTotalSize + b) →
      ∀ cc, c = some cc →
      walkEntry env path (.file n b c) s =
        ({ currentTotalSize := s.currentTotalSize + b,
           files := s.files ++ [{ path := relTo env.srcDir path,
                                  content := cc,
                                  language := getFileLanguage (relTo env.srcDir path) }],
           cache := (findMatcherForDir env path.dropLast s.cache).2 }, none))) := by
  refine ⟨?_, ?_, ?_, ?_⟩
  · intro h
    simp [walkEntry, h]
  · intro h hgit
    simp [walkEntry, h, hgit]
  · intro h hgit
    simp [walkEntry, h, hgit]
  · intro h hbin hsz hbud cc hcc
    subst hcc
    have hbin2 : filepathExt n ∉ binaryExtsList := by simpa using hbin
    simp [walkEntry, h, hbin2, hsz, hbud]

/-- C5 witness: in cliEnv the file r/skip.txt is excluded (by the cli
matcher, the resolved directory matcher being none), and the file
r/keep.go is not excluded and is delivered. -/
theorem c5_witness :
    ((matcherMatches (findMatcherForDir cliEnv (["r", "skip.txt"] : Path).dropLast s0.cache).1
        ["r", "skip.txt"] || cliMatches cliEnv ["r", "skip.txt"]) = true ∧
     walkEntry cliEnv ["r", "skip.txt"] (.file "skip.txt" 1 (some "x")) s0 =
       ({ s0 with cache := (findMatcherForDir cliEnv (["r", "skip.txt"] : Path).dropLast s0.cache).2 },
        none)) ∧
    ((matcherMatches (findMatcherForDir cliEnv (["r", "keep.go"] : Path).dropLast s0.cache).1
        ["r", "keep.go"] || cliMatches cliEnv ["r", "keep.go"]) = false ∧
     walkEntry cliEnv ["r", "keep.go"] (.file "keep.go" 1 (some "x")) s0 =
       ({ currentTotalSize := s0.currentTotalSize + 1,
          files := s0.files ++ [{ path := relTo cliEnv.srcDir ["r", "keep.go"],
                                  content := "x",
                                  language := getFileLanguage (relTo cliEnv.srcDir ["r", "keep.go"]) }],
          cache := (findMatcherForDir cliEnv (["r", "keep.go"] : Path).dropLast s0.cache).2 }, none)) :=
  ⟨⟨by decide,
    (c5_exclusion_is_or cliEnv ["r", "skip.txt"] s0 "skip.txt" 1 (some "x") .nil).1 (by decide)⟩,
   ⟨by decide,
    (c5_exclusion_is_or cliEnv ["r", "keep.go"] s0 "keep.go" 1 (some "x") .nil).2.2.2
      (by decide) (by decide) (by decide) (by decide) "x" rfl⟩⟩

/-- C6: with a per-file ceiling configured (maxSizeBytes > 0) and an
otherwise admissible file, a file strictly larger than the ceiling is
skipped with no error so the traversal continues (generator.go:185-188),
while a file of exactly the ceiling size passes the per-file check and,
absent other limits, is delivered to the Assembler. -/
theorem c6_perfile_ceiling (env : WalkEnv) (path : Path) (s : GenState)
    (n : String) (b : Nat) (c : Option String)
    (hmax : 0 < env.maxSizeBytes)
    (hig : (matcherMatches (findMatcherForDir env path.dropLast s.cache).1 path ||
            cliMatches env path) = false)
    (hbin : binaryExtsList.contains (filepathExt n) = false) :
    ((env.maxSizeBytes < b →
      walkEntry env path (.file n b c) s =
        ({ s with cache := (findMatcherForDir env path.dropLast s.cache).2 }, none)) ∧
     (b = env.maxSizeBytes →
      ¬(0 < env.totalSizeLimit ∧ env.totalSizeLimit < s.currentTotalSize + b) →
      ∀ cc, c = some cc →
      walkEntry env path (.file n b c) s =
        ({ currentTotalSize := s.currentTotalSize + b,
           files := s.files ++ [{ path := relTo env.srcDir path,
                                  content := cc,
                                  language := getFileLanguage (relTo env.srcDir path) }],
           cache := (findMatcherForDir env path.dropLast s.cache).2 }, none))) := by
  have hbin2 : filepathExt n ∉ binaryExtsList := by simpa using hbin
  refine ⟨?_, ?_⟩
  · intro hlt
    simp [walkEntry, hig, hbin2, hmax, hlt]
  · intro hb hbud cc hcc
    subst hcc
    have hsz : ¬(0 < env.maxSizeBytes ∧ env.maxSizeBytes < b) := by omega
    simp [walkEntry, hig, hbin2, hsz, hbud]

/-- C6 witness: with per-file ceiling 5, a 6-byte file is rejected and
a 5-byte file is delivered. -/
theorem c6_witness :
    (0 < (plainEnv 5 0).maxSizeBytes ∧
     walkEntry (plainEnv 5 0) ["r", "big.go"] (.file "big.go" 6 (some "x")) s0 =
       ({ s0 with cache := (findMatcherForDir (plainEnv 5 0) (["r", "big.go"] : Path).dropLast s0.cache).2 },
        none)) ∧
    walkEntry (plainEnv 5 0) ["r", "ok.go"] (.file "ok.go" 5 (some "x")) s0 =
      ({ currentTotalSize := s0.currentTotalSize + 5,
         files := s0.files ++ [{ path := relTo (plainEnv 5 0).srcDir ["r", "ok.go"],
                                 content := "x",
                                 language := getFileLanguage (relTo (plainEnv 5 0).srcDir ["r", "ok.go"]) }],
         cache := (findMatcherForDir (plainEnv 5 0) (["r", "ok.go"] : Path).dropLast s0.cache).2 },
       none) :=
  ⟨⟨by decide,
    (c6_perfile_ceiling (plainEnv 5 0) ["r", "big.go"] s0 "big.go" 6 (some "x")
        (by decide) (by decide) (by decide)).1 (by decide)⟩,
   (c6_perfile_ceiling (plainEnv 5 0) ["r", "ok.go"] s0 "ok.go" 5 (some "x")
        (by decide) (by decide) (by decide)).2 rfl (by decide) "x" rfl⟩

/-- C8: the order of the per-file checks in processPath
(generator.go:162-192).  The ignore check comes first: an ignored file
is skipped before the binary and size checks, whatever its extension or
size and whatever the budget state.  The binary-extension check comes
before both size checks: a file with a binary/archive extension is
skipped with the running total unchanged and with no error, even when
the budget is configured and the file's size would exceed it — such a
file never reaches the Size Gatekeeper. -/
theorem c8_check_order (env : WalkEnv) (path : Path) (s : GenState)
    (n : String) (b : Nat) (c : Option String) :
    (((matcherMatches (findMatcherForDir env path.dropLast s.cache).1 path ||
        cliMatches env path) = true →
      walkEntry env path (.file n b c) s =
        ({ s with cache := (findMatcherForDir env path.dropLast s.cache).2 }, none)) ∧
     ((matcherMatches (findMatcherForDir env path.dropLast s.cache).1 path ||
        cliMatches env path) = false →
      binaryExtsList.contains (filepathExt n) = true →
      walkEntry env path (.file n b c) s =
        ({ s with cache := (findMatcherForDir env path.dropLast s.cache).2 }, none))) := by
  refine ⟨?_, ?_⟩
  · intro h
    simp [walkEntry, h]
  · intro h hbin
    have hbin2 : filepathExt n ∈ binaryExtsList := by simpa using hbin
    simp [walkEntry, h, hbin2]

/-- C8 witness: with a cumulative budget of 1 byte, a 100-byte .zip
file is skipped with no budget error and the state unchanged apart from
the matcher cache. -/
theorem c8_witness :
    (matcherMatches (findMatcherForDir (plainEnv 0 1) (["r", "a.zip"] : Path).dropLast s0.cache).1
        ["r", "a.zip"] || cliMatches (plainEnv 0 1) ["r", "a.zip"]) = false ∧
    binaryExtsList.contains (filepathExt "a.zip") = true ∧
    walkEntry (plainEnv 0 1) ["r", "a.zip"] (.file "a.zip" 100 (some "x")) s0 =
      ({ s0 with cache := (findMatcherForDir (plainEnv 0 1) (["r", "a.zip"] : Path).dropLast s0.cache).2 },
       none) :=
  ⟨by decide, by decide,
   (c8_check_order (plainEnv 0 1) ["r", "a.zip"] s0 "a.zip" 100 (some "x")).2
     (by decide) (by decide)⟩

/-- C9: for a file that passes the ignore, binary and both size checks,
a failed content read (os.ReadFile error) skips the file with no error,
leaving the builder's list and the running total unchanged
(generator.go:194-199); the running total is increased, by the file's
size, exactly when the read succeeds and the file is delivered
(generator.go:201-214); in both cases the walk continues. -/
theorem c9_read_failure (env : WalkEnv) (path : Path) (s : GenState)
    (n : String) (b : Nat)
    (hig : (matcherMatches (findMatcherForDir env path.dropLast s.cache).1 path ||
            cliMatches env path) = false)
    (hbin : binaryExtsList.contains (filepathExt n) = false)
    (hsz : ¬(0 < env.maxSizeBytes ∧ env.maxSizeBytes < b))
    (hbud : ¬(0 < env.totalSizeLimit ∧ env.totalSizeLimit < s.currentTotalSize + b)) :
    (walkEntry env path (.file n b none) s =
       ({ s with cache := (findMatcherForDir env path.dropLast s.cache).2 }, none)) ∧
    (∀ cc, walkEntry env path (.file n b (some cc)) s =
       ({ currentTotalSize := s.currentTotalSize + b,
          files := s.files ++ [{ path := relTo env.srcDir path,
                                 content := cc,
                                 language := getFileLanguage (relTo env.srcDir path) }],
          cache := (findMatcherForDir env path.dropLast s.cache).2 }, none)) ∧
    (∀ co : Option String,
       (walkEntry env path (.file n b co) s).1.currentTotalSize =
         s.currentTotalSize + (if co.isSome then b else 0)) ∧
    (∀ co : Option String, (walkEntry env path (.file n b co) s).2 = none) := by
  have hbin2 : filepathExt n ∉ binaryExtsList := by simpa using hbin
  have h1 : walkEntry env path (.file n b none) s =
      ({ s with cache := (findMatcherForDir env path.dropLast s.cache).2 }, none) := by
    simp [walkEntry, hig, hbin2, hsz, hbud]
  have h2 : ∀ cc, walkEntry env path (.file n b (some cc)) s =
      ({ currentTotalSize := s.currentTotalSize + b,
         files := s.files ++ [{ path := relTo env.srcDir path,
                                content := cc,
                                language := getFileLanguage (relTo env.srcDir path) }],
         cache := (findMatcherForDir env path.dropLast s.cache).2 }, none) := by
    intro cc
    simp [walkEntry, hig, hbin2, hsz, hbud]
  refine ⟨h1, h2, ?_, ?_⟩
  · intro co
    cases co with
    | none => rw [h1]; simp
    | some cc => rw [h2 cc]; simp
  · intro co
    cases co with
    | none => rw [h1]
    | some cc => rw [h2 cc]

/-- One candidate file directly under the scan root, in an environment
with no matchers, no rules files and no per-file ceiling: the walk step
either aborts on the cumulative budget or delivers the file. -/
theorem walkEntry_candidate (env : WalkEnv)
    (hcli : env.cliMatcher = none) (hrules : ∀ d, env.hasRules d = false)
    (hmax : env.maxSizeBytes = 0)
    (n : String) (b : Nat) (cnt : String) (s : GenState) (hc : cacheValid env s.cache)
    (hbin : binaryExtsList.contains (filepathExt n) = false) :
    walkEntry env (env.srcDir ++ [n]) (.file n b (some cnt)) s =
      (if 0 < env.totalSizeLimit ∧ env.totalSizeLimit < s.currentTotalSize + b then
         ({ s with cache := (findMatcherForDir env env.srcDir s.cache).2 }, some budgetErrMsg)
       else
         ({ currentTotalSize := s.currentTotalSize + b,
            files := s.files ++ [flatFD (n, b, cnt)],
            cache := (findMatcherForDir env env.srcDir s.cache).2 }, none)) := by
  have hdrop : (env.srcDir ++ [n]).dropLast = env.srcDir := List.dropLast_concat
  have hm := findMatcher_none_of_noRules env hrules env.srcDir s.cache hc
  have hig : (matcherMatches (findMatcherForDir env env.srcDir s.cache).1 (env.srcDir ++ [n]) ||
      cliMatches env (env.srcDir ++ [n])) = false := by
    simp [matcherMatches, hm.1, cliMatches, hcli]
  have hbin2 : filepathExt n ∉ binaryExtsList := by simpa using hbin
  have hrel : relTo env.srcDir (env.srcDir ++ [n]) = [n] := by
    simp [relTo, List.drop_left]
  by_cases hbud : 0 < env.totalSizeLimit ∧ env.totalSizeLimit < s.currentTotalSize + b
  · rw [if_pos hbud]
    simp [walkEntry, hdrop, hig, hbin2, hmax, hbud]
  · rw [if_neg hbud]
    simp [walkEntry, hdrop, hig, hbin2, hmax, hbud, hrel, flatFD]

/-- Walking a flat batch of candidate files under a configured
cumulative ceiling: if some prefix sum first exceeds the ceiling at
index k, the walk errors there with exactly the first k files
delivered; otherwise all files are delivered, the total increases by
the batch size, and no error occurs. -/
theorem walkFlat_budget (env : WalkEnv)
    (hcli : env.cliMatcher = none) (hrules : ∀ d, env.hasRules d = false)
    (hmax : env.maxSizeBytes = 0) (hB : 0 < env.totalSizeLimit) :
    ∀ (fs : List (String × Nat × String)) (s : GenState), cacheValid env s.cache →
      (∀ x ∈ fs, binaryExtsList.contains (filepathExt x.1) = false) →
      ((∀ k, firstOver env.totalSizeLimit s.currentTotalSize (fs.map fun x => x.2.1) = some k →
          (walkEntries env env.srcDir (flatFiles fs) s).2 = some budgetErrMsg ∧
          (walkEntries env env.srcDir (flatFiles fs) s).1.files =
            s.files ++ (fs.take k).map flatFD) ∧
       (firstOver env.totalSizeLimit s.currentTotalSize (fs.map fun x => x.2.1) = none →
          (walkEntries env env.srcDir (flatFiles fs) s).2 = none ∧
          (walkEntries env env.srcDir (flatFiles fs) s).1.files = s.files ++ fs.map flatFD ∧
          (walkEntries env env.srcDir (flatFiles fs) s).1.currentTotalSize =
            s.currentTotalSize + (fs.map fun x => x.2.1).sum ∧
          cacheValid env (walkEntries env env.srcDir (flatFiles fs) s).1.cache)) := by
  intro fs
  induction fs with
  | nil =>
    intro s hc hbin
    refine ⟨?_, ?_⟩
    · intro k hk
      simp [firstOver] at hk
    · intro hnone
      refine ⟨rfl, by simp [flatFiles, walkEntries], by simp [flatFiles, walkEntries], ?_⟩
      simpa [flatFiles, walkEntries] using hc
  | cons x rest ih =>
    obtain ⟨n, b, cnt⟩ := x
    intro s hc hbin
    have hstep := walkEntry_candidate env hcli hrules hmax n b cnt s hc
      (hbin (n, b, cnt) (by simp))
    have hbinrest : ∀ x ∈ rest, binaryExtsList.contains (filepathExt x.1) = false :=
      fun x hx => hbin x (by simp [hx])
    by_cases hbud : 0 < env.totalSizeLimit ∧ env.totalSizeLimit < s.currentTotalSize + b
    · rw [if_pos hbud] at hstep
      have hfo : firstOver env.totalSizeLimit s.currentTotalSize
          (((n, b, cnt) :: rest).map fun x => x.2.1) = some 0 := by
        simp [firstOver, hbud.2]
      refine ⟨?_, ?_⟩
      · intro k hk
        rw [hfo] at hk
        cases hk
        constructor
        · simp [flatFiles, walkEntries, Entry.name, hstep]
        · simp [flatFiles, walkEntries, Entry.name, hstep]
      · intro hnone
        rw [hfo] at hnone
        cases hnone
    · rw [if_neg hbud] at hstep
      have hlt : ¬(env.totalSizeLimit < s.currentTotalSize + b) := fun hl => hbud ⟨hB, hl⟩
      have hfo : firstOver env.totalSizeLimit s.currentTotalSize
          (((n, b, cnt) :: rest).map fun x => x.2.1) =
          (firstOver env.totalSizeLimit (s.currentTotalSize + b)
            (rest.map fun x => x.2.1)).map (fun i => i + 1) := by
        simp [firstOver, hlt]
      have huw : walkEntries env env.srcDir (flatFiles ((n, b, cnt) :: rest)) s =
          walkEntries env env.srcDir (flatFiles rest)
            { currentTotalSize := s.currentTotalSize + b,
              files := s.files ++ [flatFD (n, b, cnt)],
              cache := (findMatcherForDir env env.srcDir s.cache).2 } := by
        simp [flatFiles, walkEntries, Entry.name, hstep]
      have hrec := ih { currentTotalSize := s.currentTotalSize + b,
                        files := s.files ++ [flatFD (n, b, cnt)],
                        cache := (findMatcherForDir env env.srcDir s.cache).2 }
        (findMatcher_none_of_noRules env hrules env.srcDir s.cache hc).2 hbinrest
      refine ⟨?_, ?_⟩
      · intro k hk
        rw [hfo] at hk
        rcases Option.map_eq_some'.mp hk with ⟨k2, hk2, hkk⟩
        have hinner := hrec.1 k2 hk2
        subst hkk
        rw [huw]
        refine ⟨hinner.1, ?_⟩
        rw [hinner.2]
        simp [List.take_succ_cons]
      · intro hnone
        rw [hfo] at hnone
        have hinner : firstOver env.totalSizeLimit (s.currentTotalSize + b)
            (rest.map fun x => x.2.1) = none := by
          cases hin : firstOver env.totalSizeLimit (s.currentTotalSize + b)
              (rest.map fun x => x.2.1) with
          | none => rfl
          | some k2 => rw [hin] at hnone; cases hnone
        have hr := hrec.2 hinner
        rw [huw]
        refine ⟨hr.1, ?_, ?_, hr.2.2.2⟩
        · rw [hr.2.1]
          simp
        · rw [hr.2.2.1]
          simp
          omega

theorem numberLines_get (ls : List (List Char)) :
    ∀ (i k : Nat), (numberLines i ls).get? k =
      (ls.get? k).map (fun l => sprintfNum (i + k) l) := by
  induction ls with
  | nil => intro i k; simp [numberLines]
  | cons h t ih =>
    intro i k
    cases k with
    | zero => simp [numberLines]
    | succ k =>
      simp only [numberLines, List.get?_cons_succ]
      rw [ih (i + 1) k]
      have harith : i + 1 + k = i + (k + 1) := by omega
      rw [harith]

theorem numberLines_length (ls : List (List Char)) :
    ∀ i, (numberLines i ls).length = ls.length := by
  induction ls with
  | nil => intro i; rfl
  | cons h t ih => intro i; simp [numberLines, ih]

theorem numberLines_concat (ls : List (List Char)) (x : List Char) :
    ∀ i, numberLines i (ls ++ [x]) = numberLines i ls ++ [sprintfNum (i + ls.length) x] := by
  induction ls with
  | nil => intro i; simp [numberLines]
  | cons h t ih =>
    intro i
    have harith : i + 1 + t.length = i + (t.length + 1) := by omega
    show numberLines i (h :: (t ++ [x])) = _
    simp only [numberLines, ih (i + 1), harith, List.length_cons]
    rfl

theorem splitNl_cons (c : Char) (rest : List Char) :
    splitNl (c :: rest) =
      match splitNl rest with
      | [] => [[]]
      | h :: t => if c = '\n' then [] :: h :: t else (c :: h) :: t := rfl

theorem splitNl_cons_eq (c : Char) (rest : List Char) (a : List Char) (t : List (List Char))
    (h : splitNl rest = a :: t) :
    splitNl (c :: rest) = if c = '\n' then [] :: a :: t else (c :: a) :: t := by
  rw [splitNl_cons, h]

theorem splitNl_ne_nil (cs : List Char) : splitNl cs ≠ [] := by
  induction cs with
  | nil => simp [splitNl]
  | cons c rest ih =>
    rcases h : splitNl rest with _ | ⟨a, t⟩
    · exact absurd h ih
    · rw [splitNl_cons_eq c rest a t h]
      by_cases hc : c = '\n' <;> simp [hc]

theorem splitNl_length (cs : List Char) :
    (splitNl cs).length = cs.count '\n' + 1 := by
  induction cs with
  | nil => simp [splitNl]
  | cons c rest ih =>
    have hcount : (c :: rest).count '\n' =
        rest.count '\n' + (if c = '\n' then 1 else 0) := by
      by_cases hc : c = '\n'
      · subst hc
        simp [List.count_cons]
      · have hbe : (c == '\n') = false := beq_eq_false_iff_ne.mpr hc
        simp [List.count_cons, hbe, hc]
    rcases h : splitNl rest with _ | ⟨a, t⟩
    · exact absurd h (splitNl_ne_nil rest)
    · rw [h] at ih
      rw [splitNl_cons_eq c rest a t h, hcount]
      by_cases hc : c = '\n'
      · rw [if_pos hc, if_pos hc]
        simp only [List.length_cons] at ih ⊢
        omega
      · rw [if_neg hc, if_neg hc]
        simp only [List.length_cons] at ih ⊢
        omega

theorem splitNl_concat_newline (cs : List Char) :
    splitNl (cs ++ ['\n']) = splitNl cs ++ [[]] := by
  induction cs with
  | nil => rfl
  | cons c rest ih =>
    rcases h : splitNl rest with _ | ⟨a, t⟩
    · exact absurd h (splitNl_ne_nil rest)
    · have h2 : splitNl (rest ++ ['\n']) = a :: (t ++ [[]]) := by
        rw [ih, h, List.cons_append]
      have hcons : splitNl (c :: (rest ++ ['\n'])) =
          if c = '\n' then [] :: a :: (t ++ [[]]) else (c :: a) :: (t ++ [[]]) :=
        splitNl_cons_eq c (rest ++ ['\n']) a (t ++ [[]]) h2
      rw [List.cons_append, hcons, splitNl_cons_eq c rest a t h]
      by_cases hc : c = '\n' <;> simp [hc]

/-- C7: the review builder decomposes each file of the batch, by
itself, into individually numbered lines: the j-th review record is
computed from the j-th input file alone (so one file's alignment cannot
depend on the other files of the batch), the k-th split line (0-based)
is rendered as the number k+1 in the fmt %4d field — right-aligned,
width 4 — followed by a colon and a space, the first line's prefix
being exactly "   1: "; a 3-line file is numbered 1, 2, 3
(builders/review.go:45-60). -/
theorem c7_review_numbering (files : List FileData) (j : Nat) (f : FileData)
    (hj : files.get? j = some f) :
    (reviewTransform files).get? j =
      some { path := f.path, language := f.language, lines := reviewLines f.content } ∧
    (∀ k l, (splitNl f.content.toList).get? k = some l →
       (reviewLines f.content).get? k = some (sprintfNum (k + 1) l)) ∧
    (∀ l, sprintfNum 1 l = [' ', ' ', ' ', '1', ':', ' '] ++ l) ∧
    reviewLines "a\nb\nc" =
      [sprintfNum 1 ['a'], sprintfNum 2 ['b'], sprintfNum 3 ['c']] := by
  refine ⟨?_, ?_, ?_, ?_⟩
  · rw [reviewTransform, List.get?_map, hj]
    rfl
  · intro k l h
    rw [reviewLines, numberLines_get, h]
    have harith : 1 + k = k + 1 := by omega
    show some (sprintfNum (1 + k) l) = some (sprintfNum (k + 1) l)
    rw [harith]
  · intro l
    rfl
  · decide

/-- C7 witness: in the batch [fdA, fdB] the review record of the
3-line file fdA is computed from fdA alone, and its third line carries
the number 3. -/
theorem c7_witness :
    ([fdA, fdB].get? 0 = some fdA) ∧
    (reviewTransform [fdA, fdB]).get? 0 =
      some { path := fdA.path, language := fdA.language, lines := reviewLines fdA.content } ∧
    (reviewLines fdA.content).get? 2 = some (sprintfNum (2 + 1) ['r']) :=
  ⟨rfl,
   (c7_review_numbering [fdA, fdB] 0 fdA rfl).1,
   (c7_review_numbering [fdA, fdB] 0 fdA rfl).2.1 2 ['r'] (by decide)⟩

/-- C10: for every content, the review builder produces exactly
(number of newline characters) + 1 numbered lines (strings.Split on
newline); a content ending in a newline therefore ends with a final
numbered empty line, and the empty content yields the single numbered
empty line "   1: " (builders/review.go:48-53). -/
theorem c10_review_line_count (s : String) :
    (reviewLines s).length = s.toList.count '\n' + 1 ∧
    (∀ cs : List Char, s.toList = cs ++ ['\n'] →
       (reviewLines s).getLast? = some (sprintfNum (s.toList.count '\n' + 1) [])) ∧
    reviewLines "" = [sprintfNum 1 []] := by
  refine ⟨?_, ?_, ?_⟩
  · rw [reviewLines, numberLines_length, splitNl_length]
  · intro cs h
    rw [reviewLines, h, splitNl_concat_newline, numberLines_concat, List.getLast?_concat]
    have harith : 1 + (splitNl cs).length = (cs ++ ['\n']).count '\n' + 1 := by
      rw [splitNl_length, List.count_append]
      simp
      omega
    rw [harith]
  · rfl

/-- C10 witness: the content consisting of one character and a final
newline yields two numbered lines, the last being the numbered empty
line. -/
theorem c10_witness :
    ("x\n".toList = ['x'] ++ ['\n']) ∧
    (reviewLines "x\n").length = "x\n".toList.count '\n' + 1 ∧
    (reviewLines "x\n").getLast? = some (sprintfNum ("x\n".toList.count '\n' + 1) []) :=
  ⟨by decide,
   (c10_review_line_count "x\n").1,
   (c10_review_line_count "x\n").2.1 ['x'] (by decide)⟩

/-- C1 counterexample: with the unrecognized format identifier "html",
run does not fail and produces a document: the builder-selection switch
falls back to the DefaultBuilder, and the produced document is exactly
the default-variant one (main.go run, the cited switch). -/
theorem c1_counterexample :
    selectBuilder "html" = BuilderKind.defaultB ∧
    (runModel (plainEnv 0 0) "html" treeOneFile none).isOk = true ∧
    runModel (plainEnv 0 0) "html" treeOneFile none =
      runModel (plainEnv 0 0) "default" treeOneFile none := by
  exact ⟨rfl, rfl, rfl⟩

/-- C1 (amended): for every format identifier other than review, llm
and default, the legacy MarkdownBuilder.Build does fail with an
"unknown format" error, but the operation that selects a builder and
produces the document — run — does not fail and does not produce an
error: it silently falls back to the DefaultBuilder, so the whole run
behaves exactly as with the "default" identifier. -/
theorem c1_format_fallback (format : String)
    (h1 : format ≠ "review") (h2 : format ≠ "llm") (h3 : format ≠ "default") :
    markdownTemplatePath format = Except.error ("unknown format: " ++ format) ∧
    selectBuilder format = BuilderKind.defaultB ∧
    (∀ env root readme,
       runModel env format root readme = runModel env "default" root readme) := by
  refine ⟨?_, ?_, ?_⟩
  · simp [markdownTemplatePath, h1, h2, h3]
  · simp [selectBuilder, h1, h2]
  · intro env root readme
    simp [runModel, selectBuilder, h1, h2]

/-- C1 witness: the unrecognized identifier "markdown" is rejected by
the legacy template selection but makes run produce the default-variant
document. -/
theorem c1_witness :
    (("markdown" : String) ≠ "review" ∧ ("markdown" : String) ≠ "llm" ∧
       ("markdown" : String) ≠ "default") ∧
    markdownTemplatePath "markdown" = Except.error ("unknown format: " ++ "markdown") ∧
    selectBuilder "markdown" = BuilderKind.defaultB ∧
    runModel (plainEnv 0 0) "markdown" treeOneFile none =
      runModel (plainEnv 0 0) "default" treeOneFile none :=
  ⟨⟨by decide, by decide, by decide⟩,
   (c1_format_fallback "markdown" (by decide) (by decide) (by decide)).1,
   (c1_format_fallback "markdown" (by decide) (by decide) (by decide)).2.1,
   (c1_format_fallback "markdown" (by decide) (by decide) (by decide)).2.2
     (plainEnv 0 0) treeOneFile none⟩

/-- C9 witness: in an unrestricted environment the unreadable file
r/bad.txt is skipped with the total unchanged, and the same file with a
readable content is delivered with the total increased by its size. -/
theorem c9_witness :
    walkEntry (plainEnv 0 0) ["r", "bad.txt"] (.file "bad.txt" 2 none) s0 =
      ({ s0 with cache := (findMatcherForDir (plainEnv 0 0) (["r", "bad.txt"] : Path).dropLast s0.cache).2 },
       none) ∧
    (walkEntry (plainEnv 0 0) ["r", "bad.txt"] (.file "bad.txt" 2 none) s0).1.currentTotalSize =
      s0.currentTotalSize + (if (none : Option String).isSome then 2 else 0) ∧
    (walkEntry (plainEnv 0 0) ["r", "bad.txt"] (.file "bad.txt" 2 (some "z")) s0).1.currentTotalSize =
      s0.currentTotalSize + (if (some "z" : Option String).isSome then 2 else 0) := by
  have h := c9_read_failure (plainEnv 0 0) ["r", "bad.txt"] s0 "bad.txt" 2
    (by decide) (by decide) (by decide) (by decide)
  exact ⟨h.1, h.2.2.1 none, h.2.2.1 (some "z")⟩

/-- C2: with a cumulative ceiling B > 0 configured, for every batch of
candidate files walked in traversal order under the scan root, the
walk returns the budget error at the first file whose size added to
the running total of the previously accepted files would exceed B
(generator.go:190-192); the files accepted before that point are
exactly what the Assembler has accumulated; and run surfaces the walk
error before Build is ever called, so no document is produced
(main.go run). -/
theorem c2_cumulative_budget (env : WalkEnv) (rn : String)
    (fs : List (String × Nat × String)) (k : Nat) (format : String) (readme : Option String)
    (hcli : env.cliMatcher = none) (hrules : ∀ d, env.hasRules d = false)
    (hmax : env.maxSizeBytes = 0) (hB : 0 < env.totalSizeLimit)
    (hbin : ∀ x ∈ fs, binaryExtsList.contains (filepathExt x.1) = false)
    (hrn : rn ≠ ".git")
    (hk : firstOver env.totalSizeLimit 0 (fs.map fun x => x.2.1) = some k) :
    (walkRoot env (.dir rn (flatFiles fs))).2 = some budgetErrMsg ∧
    (walkRoot env (.dir rn (flatFiles fs))).1.files = (fs.take k).map flatFD ∧
    runModel env format (.dir rn (flatFiles fs)) readme = Except.error budgetErrMsg := by
  have hm := findMatcher_none_of_noRules env hrules env.srcDir.dropLast []
    (cacheValid_nil env)
  have hig : (matcherMatches (findMatcherForDir env env.srcDir.dropLast ([] : Cache)).1
      env.srcDir || cliMatches env env.srcDir) = false := by
    simp [matcherMatches, hm.1, cliMatches, hcli]
  have hroot : walkRoot env (.dir rn (flatFiles fs)) =
      walkEntries env env.srcDir (flatFiles fs)
        { currentTotalSize := 0, files := [],
          cache := (findMatcherForDir env env.srcDir.dropLast ([] : Cache)).2 } := by
    simp [walkRoot, walkEntry, hrn, hig]
  have hflat := walkFlat_budget env hcli hrules hmax hB fs
    { currentTotalSize := 0, files := [],
      cache := (findMatcherForDir env env.srcDir.dropLast ([] : Cache)).2 }
    hm.2 hbin
  have h1 := hflat.1 k hk
  refine ⟨?_, ?_, ?_⟩
  · rw [hroot]
    exact h1.1
  · rw [hroot]
    simpa using h1.2
  · simp only [runModel.eq_def]
    rw [hroot, h1.1]

/-- C2 witness: ceiling 8 over the batch of sizes 3, 4, 5: the walk
aborts at index 2 (3 + 4 + 5 > 8), the first two files are retained,
and run fails. -/
theorem c2_witness :
    firstOver (plainEnv 0 8).totalSizeLimit 0 (fsBatch.map fun x => x.2.1) = some 2 ∧
    (walkRoot (plainEnv 0 8) (.dir "r" (flatFiles fsBatch))).2 = some budgetErrMsg ∧
    (walkRoot (plainEnv 0 8) (.dir "r" (flatFiles fsBatch))).1.files =
      (fsBatch.take 2).map flatFD ∧
    runModel (plainEnv 0 8) "default" (.dir "r" (flatFiles fsBatch)) none =
      Except.error budgetErrMsg := by
  have h := c2_cumulative_budget (plainEnv 0 8) "r" fsBatch 2 "default" none
    rfl (fun d => rfl) rfl (by decide) (by decide) (by decide) (by decide)
  exact ⟨by decide, h.1, h.2.1, h.2.2⟩

mutual
/-- With no cli matcher, no rules files and no size limits, one walk
step delivers exactly the spec-described accepted files under the
entry, never errs, and keeps the cache valid. -/
theorem walkNF_entry (env : WalkEnv) (hcli : env.cliMatcher = none)
    (hrules : ∀ d, env.hasRules d = false) (hmax : env.maxSizeBytes = 0)
    (htot : env.totalSizeLimit = 0) (e : Entry) (path : Path) (s : GenState)
    (hc : cacheValid env s.cache) :
    (walkEntry env path e s).2 = none ∧
    (walkEntry env path e s).1.files.map (fun f => f.path) =
      s.files.map (fun f => f.path) ++ (specAccepted path e).map (relTo env.srcDir) ∧
    cacheValid env (walkEntry env path e s).1.cache := by
  cases e with
  | file n b c =>
    have hm := findMatcher_none_of_noRules env hrules path.dropLast s.cache hc
    have hig : (matcherMatches (findMatcherForDir env path.dropLast s.cache).1 path ||
        cliMatches env path) = false := by
      simp [matcherMatches, hm.1, cliMatches, hcli]
    by_cases hbin : binaryExtsList.contains (filepathExt n) = true
    · have hbin2 : filepathExt n ∈ binaryExtsList := by simpa using hbin
      refine ⟨?_, ?_, ?_⟩ <;>
        simp [walkEntry, hig, hbin2, specAccepted, hm.2]
    · have hbin2 : filepathExt n ∉ binaryExtsList := by simpa using hbin
      cases c with
      | none =>
        refine ⟨?_, ?_, ?_⟩ <;>
          simp [walkEntry, hig, hbin2, hmax, htot, specAccepted, hm.2]
      | some cc =>
        refine ⟨?_, ?_, ?_⟩ <;>
          simp [walkEntry, hig, hbin2, hmax, htot, specAccepted, hm.2]
  | dir n children =>
    by_cases hgit : n = ".git"
    · subst hgit
      refine ⟨?_, ?_, ?_⟩ <;> simp [walkEntry, specAccepted, hc]
    · have hm := findMatcher_none_of_noRules env hrules path.dropLast s.cache hc
      have hig : (matcherMatches (findMatcherForDir env path.dropLast s.cache).1 path ||
          cliMatches env path) = false := by
        simp [matcherMatches, hm.1, cliMatches, hcli]
      have heq : walkEntry env path (.dir n children) s =
          walkEntries env path children
            { s with cache := (findMatcherForDir env path.dropLast s.cache).2 } := by
        simp [walkEntry, hgit, hig]
      have hrec := walkNF_list env hcli hrules hmax htot children path
        { s with cache := (findMatcherForDir env path.dropLast s.cache).2 } hm.2
      rw [heq]
      refine ⟨hrec.1, ?_, hrec.2.2⟩
      rw [hrec.2.1]
      simp [specAccepted, hgit]

/-- walkNF_entry for the entries of one directory, in order. -/
theorem walkNF_list (env : WalkEnv) (hcli : env.cliMatcher = none)
    (hrules : ∀ d, env.hasRules d = false) (hmax : env.maxSizeBytes = 0)
    (htot : env.totalSizeLimit = 0) (es : EntryList) (dirPath : Path) (s : GenState)
    (hc : cacheValid env s.cache) :
    (walkEntries env dirPath es s).2 = none ∧
    (walkEntries env dirPath es s).1.files.map (fun f => f.path) =
      s.files.map (fun f => f.path) ++ (specAcceptedList dirPath es).map (relTo env.srcDir) ∧
    cacheValid env (walkEntries env dirPath es s).1.cache := by
  cases es with
  | nil =>
    refine ⟨rfl, ?_, ?_⟩ <;> simp [walkEntries, specAcceptedList, hc]
  | cons e rest =>
    have he := walkNF_entry env hcli hrules hmax htot e (dirPath ++ [e.name]) s hc
    have heq : walkEntries env dirPath (.cons e rest) s =
        walkEntries env dirPath rest (walkEntry env (dirPath ++ [e.name]) e s).1 := by
      simp [walkEntries, he.1]
    have hr := walkNF_list env hcli hrules hmax htot rest dirPath
      (walkEntry env (dirPath ++ [e.name]) e s).1 he.2.2
    rw [heq]
    refine ⟨hr.1, ?_, hr.2.2⟩
    rw [hr.2.1, he.2.1]
    simp [specAcceptedList]
end

/-- C3 (amended): for every directory tree, with no ignore rule sets
configured, no directory-local rules files, and both size ceilings
unlimited (0), the walk never errs and the sequence of paths delivered
to the Assembler is exactly the set of entries under the root that are
not directories, not inside a directory named .git, whose extension is
not in the fixed binary/archive extension set, and whose content read
succeeds (generator.go:148-217). -/
theorem c3_accepted_set (env : WalkEnv) (root : Entry)
    (hcli : env.cliMatcher = none) (hrules : ∀ d, env.hasRules d = false)
    (hmax : env.maxSizeBytes = 0) (htot : env.totalSizeLimit = 0) :
    (walkRoot env root).2 = none ∧
    (walkRoot env root).1.files.map (fun f => f.path) =
      (specAccepted env.srcDir root).map (relTo env.srcDir) := by
  have h := walkNF_entry env hcli hrules hmax htot root env.srcDir
    { currentTotalSize := 0, files := [], cache := [] } (cacheValid_nil env)
  exact ⟨h.1, by simpa using h.2.1⟩

/-- C3 counterexample: on the tree whose only entry is a file whose
content read fails, with no exclusion rules and no size limits, the
walk delivers nothing, while the set described by the claim (non-dir,
non-.git, non-binary-extension entries, with nothing said about
readability) contains that file: the claimed equality is false. -/
theorem c3_counterexample :
    (walkRoot (plainEnv 0 0) treeUnreadable).1.files.map (fun f => f.path) ≠
      (specClaimed (plainEnv 0 0).srcDir treeUnreadable).map (relTo (plainEnv 0 0).srcDir) := by
  decide

/-- C3 witness: on a tree mixing a readable source file, a binary file,
a .git subtree and an unreadable file, the delivered paths equal the
amended spec set (just the readable source file). -/
theorem c3_witness :
    (plainEnv 0 0).cliMatcher = none ∧
    (walkRoot (plainEnv 0 0) treeMixed).2 = none ∧
    (walkRoot (plainEnv 0 0) treeMixed).1.files.map (fun f => f.path) =
      (specAccepted (plainEnv 0 0).srcDir treeMixed).map (relTo (plainEnv 0 0).srcDir) := by
  have h := c3_accepted_set (plainEnv 0 0) treeMixed rfl (fun d => rfl) rfl rfl
  exact ⟨rfl, h.1, h.2⟩

/-- C4: for every directory queried during one scan (from any valid
cache state, as reachable from the fresh empty cache): with a rules
file present and parseable in the directory, the resolver returns the
matcher compiled from it; otherwise — which includes an absent,
unreadable or malformed rules file (localRule = none), silently and
non-fatally — at the scan root or a filesystem root it returns none,
and anywhere else it returns the parent directory's resolution.  In
all cases the returned result is cached under the queried directory,
prior cache entries are preserved, and a repeated query is answered
from the cache with the cache unchanged, so every directory is
resolved at most once per scan (generator.go:113-144). -/
theorem c4_resolver (env : WalkEnv) (dir : Path) (c : Cache) (hc : cacheValid env c) :
    (∀ m, localRule env dir = some m → (findMatcherForDir env dir c).1 = some m) ∧
    (localRule env dir = none → (dir = env.srcDir ∨ dir = []) →
       (findMatcherForDir env dir c).1 = none) ∧
    (localRule env dir = none → ¬(dir = env.srcDir ∨ dir = []) →
       (findMatcherForDir env dir c).1 = (findMatcherForDir env dir.dropLast c).1) ∧
    cacheLookup (findMatcherForDir env dir c).2 dir = some ((findMatcherForDir env dir c).1) ∧
    (∀ d v, cacheLookup c d = some v →
       cacheLookup (findMatcherForDir env dir c).2 d = some v) ∧
    findMatcherForDir env dir ((findMatcherForDir env dir c).2) =
      ((findMatcherForDir env dir c).1, (findMatcherForDir env dir c).2) := by
  obtain ⟨h1, h2, h3, h4⟩ := findMatcher_correct env dir c hc
  have h5 : cacheLookup (findMatcherForDir env dir c).2 dir =
      some ((findMatcherForDir env dir c).1) := by
    rw [h1]
    exact h3
  refine ⟨?_, ?_, ?_, h5, h4, ?_⟩
  · intro m hm
    rw [h1, resolveSpec_local env dir m hm]
  · intro hlr hroot
    rw [h1, resolveSpec_root env dir hlr hroot]
  · intro hlr hroot
    rw [h1, (findMatcher_correct env dir.dropLast c hc).1,
      resolveSpec_parent env dir hlr hroot]
  · exact findMatcher_cacheHit env dir (findMatcherForDir env dir c).2
      ((findMatcherForDir env dir c).1) h5

/-- C4 witness: in rulesEnv the directory r/sub holds a parseable
rules file compiling to mSub; querying it from the fresh cache returns
mSub, caches the answer under r/sub, and a second query is a pure
cache hit. -/
theorem c4_witness :
    localRule rulesEnv ["r", "sub"] = some mSub ∧
    cacheValid rulesEnv ([] : Cache) ∧
    (findMatcherForDir rulesEnv ["r", "sub"] []).1 = some mSub ∧
    cacheLookup (findMatcherForDir rulesEnv ["r", "sub"] []).2 ["r", "sub"] =
      some ((findMatcherForDir rulesEnv ["r", "sub"] []).1) ∧
    findMatcherForDir rulesEnv ["r", "sub"] ((findMatcherForDir rulesEnv ["r", "sub"] []).2) =
      ((findMatcherForDir rulesEnv ["r", "sub"] []).1,
       (findMatcherForDir rulesEnv ["r", "sub"] []).2) :=
  ⟨rfl, cacheValid_nil rulesEnv,
   (c4_resolver rulesEnv ["r", "sub"] [] (cacheValid_nil rulesEnv)).1 mSub rfl,
   (c4_resolver rulesEnv ["r", "sub"] [] (cacheValid_nil rulesEnv)).2.2.2.1,
   (c4_resolver rulesEnv ["r", "sub"] [] (cacheValid_nil rulesEnv)).2.2.2.2.2⟩

end ProjectStruct
